import Mathlib

/-
Verification of the mcp-vision image ingestion and normalization pipeline
(src/index.ts) against its natural-language specification.

The TypeScript source is shallowly embedded: buffers are lists of byte
values (Nat), strings are Lean strings manipulated through their character
lists (mirroring the JavaScript regular expressions character by
character), and the effectful dependencies (the sharp codec, the network,
the filesystem) are explicit function parameters, so every theorem
quantifies over their behavior.  Thrown JavaScript errors become values of
the inductive type VisionError below.
-/

namespace MCPVision

/-! ## Configuration constants (src/index.ts lines 22-26) -/

def MAX_IMAGES : Nat := 10

def MAX_IMAGE_SIZE_MB : Nat := 18

def MAX_IMAGE_SIZE_BYTES : Nat := MAX_IMAGE_SIZE_MB * 1024 * 1024

/-! ## String helpers

The JavaScript code tests references with anchored regular expressions.
We model them over the character list of the string.  `lowerPrefixMatch`
models a case-insensitive anchored literal (the `/i` flag), `litPrefix`
a case-sensitive one. -/

def litPrefix (p : List Char) (s : List Char) : Bool :=
  p.isPrefixOf s

def lowerPrefixMatch (p : List Char) (s : String) : Bool :=
  p.isPrefixOf (s.data.map Char.toLower)

/-- `isURL` — `/^https?:\/\//i.test(s)` (src/index.ts line 38). -/
def isURL (s : String) : Bool :=
  lowerPrefixMatch "http://".data s || lowerPrefixMatch "https://".data s

/-- `isFileURL` — `/^file:\/\//i.test(s)` (src/index.ts line 42). -/
def isFileURL (s : String) : Bool :=
  lowerPrefixMatch "file://".data s

/-- `isDataURI` — `/^data:image\/[^;]+;base64,/.test(s)` (src/index.ts line 46):
the literal "data:image/", at least one character other than a semicolon,
then the literal ";base64,". -/
def isDataURI (s : String) : Bool :=
  litPrefix "data:image/".data s.data &&
    (let rest := s.data.drop 11
     let sub := rest.takeWhile (fun c => c ≠ ';')
     decide (1 ≤ sub.length) && litPrefix ";base64,".data (rest.drop sub.length))

/-- `isAbsPath` — `s.startsWith("/") || /^[A-Za-z]:\\/.test(s)`
(src/index.ts line 50). -/
def isAbsPath (s : String) : Bool :=
  match s.data with
  | '/' :: _ => true
  | c :: ':' :: '\\' :: _ => c.isAlpha
  | _ => false

/-! ## formatToMime (src/index.ts lines 55-68) -/

def strToLower (s : String) : String :=
  String.mk (s.data.map Char.toLower)

/-- The closed lookup table of the source, as a key-value list. -/
def mimeMap : List (String × String) :=
  [("jpeg", "image/jpeg"), ("jpg", "image/jpeg"), ("png", "image/png"),
   ("gif", "image/gif"), ("webp", "image/webp"), ("tiff", "image/tiff"),
   ("avif", "image/avif"), ("heif", "image/heif"), ("heic", "image/heic")]

/-- `formatToMime` — object lookup on `format.toLowerCase()`, defaulting to
"image/png" (src/index.ts line 67). -/
def formatToMime (format : String) : String :=
  match mimeMap.lookup (strToLower format) with
  | some m => m
  | none => "image/png"

/-! ## Base64 (Node `buffer.toString("base64")`), standard alphabet with
padding, over byte lists. -/

def b64Table : List Char :=
  "ABCDEFGHIJKLMNOPQRSTUVWXYZabcdefghijklmnopqrstuvwxyz0123456789+/".data

def b64Char (n : Nat) : Char := b64Table.getD n 'A'

def b64Val (c : Char) : Nat := b64Table.indexOf c

def base64Encode : List Nat → List Char
  | [] => []
  | [a] => [b64Char (a / 4), b64Char (a % 4 * 16), '=', '=']
  | [a, b] => [b64Char (a / 4), b64Char (a % 4 * 16 + b / 16), b64Char (b % 16 * 4), '=']
  | a :: b :: c :: rest =>
      b64Char (a / 4) :: b64Char (a % 4 * 16 + b / 16) ::
        b64Char (b % 16 * 4 + c / 64) :: b64Char (c % 64) :: base64Encode rest

def base64Decode : List Char → List Nat
  | a :: b :: c :: d :: rest =>
      if c = '=' ∧ d = '=' ∧ rest = [] then
        [b64Val a * 4 + b64Val b / 16]
      else if d = '=' ∧ rest = [] then
        [b64Val a * 4 + b64Val b / 16, b64Val b % 16 * 16 + b64Val c / 4]
      else
        (b64Val a * 4 + b64Val b / 16) :: (b64Val b % 16 * 16 + b64Val c / 4) ::
          (b64Val c % 4 * 64 + b64Val d) :: base64Decode rest
  | _ => []

/-! ## The resize geometry of the sharp dependency

Modelled from sharp's documented semantics for
`resize(L, L, {fit: "inside", withoutEnlargement: true})`: an image
already fitting in the L x L box is left alone, otherwise both dimensions
are scaled by `L / max(width, height)` and rounded to the nearest
integer. -/

/-- Rounding `num / den` to the nearest integer (`Math.round`). -/
def natRound (num den : Nat) : Nat := (2 * num + den) / (2 * den)

def fitInsideDims (w h L : Nat) : Nat × Nat :=
  if w ≤ L ∧ h ≤ L then (w, h)
  else (natRound (w * L) (max w h), natRound (h * L) (max w h))

/-! ## Data model -/

structure InlineData where
  mimeType : String
  data : String
deriving Repr, DecidableEq

/-- `GeminiPart` (src/index.ts lines 29-35): either an inline image payload
or a text segment, both fields optional. -/
structure GeminiPart where
  inlineData : Option InlineData := none
  text : Option String := none
deriving Repr, DecidableEq

/-- The errors thrown by the source, one constructor per `throw` site. -/
inductive VisionError where
  | invalidDataURIFormat
  | dataURINotImage (mime : String)
  | dataURITooLarge (payloadLength : Nat)
  | fetchFailed
  | httpStatus (code : Nat)
  | badContentType (contentType : String)
  | imageTooLarge (bytes : Nat)
  | notAValidImage
  | invalidOrCorruptedImage
  | imageTooLargeAfterProcessing (bytes : Nat)
  | unsupportedImageFormat (ref : String)
  | fileReadError (path : String)
  | missingImages
  | missingInstruction
  | atLeastOneImageRequired
  | tooManyImages (count : Nat)
  | missingApiKey
  | missingProject
  | parseFailure (status : Nat) (bodyStart : String)
  | providerApiError (status : Nat) (msg : String)
  | vertexApiError (status : Nat) (msg : String)
deriving Repr, DecidableEq

/-- The result of `sharp(buffer).metadata()`: each field may be absent
(JavaScript `undefined`). -/
structure ImageMetadata where
  format : Option String
  width : Option Nat
  height : Option Nat
deriving Repr, DecidableEq

/-- The sharp codec, abstracted: `metadata` may throw (the `Except.error`
case) and `resizeInside` stands for
`sharp(buffer).resize(L, L, {fit: "inside", withoutEnlargement: true}).toBuffer()`. -/
structure Codec where
  metadata : List Nat → Except Unit ImageMetadata
  resizeInside : List Nat → Nat → List Nat

/-- JavaScript truthiness of `metadata.format` (undefined and "" falsy). -/
def truthyFormat : Option String → Bool
  | none => false
  | some s => decide (s ≠ "")

/-- JavaScript truthiness of `metadata.width` / `metadata.height`
(undefined and 0 falsy). -/
def truthyDim : Option Nat → Bool
  | none => false
  | some n => decide (n ≠ 0)

/-! ## processImageBuffer (src/index.ts lines 157-199) -/

/-- The `processedBuffer` local of `processImageBuffer` (src/index.ts
lines 171-184): the resize output when `MAX_LONG_EDGE` is truthy,
positive and exceeded by the longer edge, the untouched input buffer
otherwise. -/
def processedBuffer (codec : Codec) (maxLongEdge : Nat) (buffer : List Nat)
    (md : ImageMetadata) : List Nat :=
  if 0 < maxLongEdge then
    if maxLongEdge < max (md.width.getD 0) (md.height.getD 0) then
      codec.resizeInside buffer maxLongEdge
    else buffer
  else buffer

/-- `processImageBuffer`: decode via the codec, reject when the metadata
call throws or any of format/width/height is falsy, derive the MIME type
from the decoded format, resize when a positive `MAX_LONG_EDGE` is
exceeded, apply the final size check, and base64 encode. -/
def processImageBuffer (codec : Codec) (maxLongEdge : Nat) (buffer : List Nat) :
    Except VisionError GeminiPart :=
  match codec.metadata buffer with
  | .error _ => .error .notAValidImage
  | .ok md =>
    if truthyFormat md.format && truthyDim md.width && truthyDim md.height then
      if MAX_IMAGE_SIZE_BYTES < (processedBuffer codec maxLongEdge buffer md).length then
        .error (.imageTooLargeAfterProcessing (processedBuffer codec maxLongEdge buffer md).length)
      else
        .ok ⟨some ⟨formatToMime (md.format.getD ""),
          String.mk (base64Encode (processedBuffer codec maxLongEdge buffer md))⟩, none⟩
    else
      .error .invalidOrCorruptedImage

/-! ## toPart (src/index.ts lines 81-154) -/

/-- A character matched by `.` in a JavaScript regular expression without
the dotAll flag: anything but a line terminator. -/
def jsDotChar (c : Char) : Bool :=
  c ≠ '\n' && c ≠ '\r' && c.toNat ≠ 8232 && c.toNat ≠ 8233

/-- The extraction `/^data:([^;]+);base64,(.+)$/.exec(img)`
(src/index.ts line 84): capture the claimed MIME type up to the first
semicolon, require the literal ";base64,", capture a non-empty payload of
non-line-terminator characters reaching the end of the string. -/
def parseDataURI (s : String) : Option (String × String) :=
  if litPrefix "data:".data s.data then
    let rest := s.data.drop 5
    let mime := rest.takeWhile (fun c => c ≠ ';')
    let afterMime := rest.drop mime.length
    if 1 ≤ mime.length ∧ litPrefix ";base64,".data afterMime then
      let payload := afterMime.drop 8
      if 1 ≤ payload.length ∧ payload.all jsDotChar then
        some (String.mk mime, String.mk payload)
      else none
    else none
  else none

/-- An HTTP response as consumed by the URL branch: status code, declared
content type header (possibly absent), body bytes. -/
structure HttpResponse where
  statusCode : Nat
  contentType : Option String
  body : List Nat

/-- The effectful environment of `toPart`: the network, the filesystem and
the `MAX_LONG_EDGE` configuration.  `none` models a thrown error. -/
structure Env where
  httpGet : String → Option HttpResponse
  readFile : String → Option (List Nat)
  maxLongEdge : Nat

/-- `fileURLToPath` for an empty-host file URL such as "file:///tmp/a.jpg":
drop the 7-character scheme marker "file://". -/
def fileURLToPath (s : String) : String :=
  String.mk (s.data.drop 7)

/-- The `filepath` local of `toPart`'s tail (src/index.ts lines 143-146):
the file URL resolved to a path when applicable. -/
def resolvedPath (img : String) : String :=
  if isFileURL img then fileURLToPath img else img

/-- `toPart` (src/index.ts lines 81-154).  Branch order as in the source:
data URI, then HTTP(S) URL, then file URL / absolute path, otherwise the
"Unsupported image format" error.  Note that the data URI branch returns
directly and never reaches `processImageBuffer`. -/
def toPart (codec : Codec) (env : Env) (img : String) : Except VisionError GeminiPart :=
  if isDataURI img then
    match parseDataURI img with
    | none => .error .invalidDataURIFormat
    | some (mime, payload) =>
      if litPrefix "image/".data mime.data then
        if MAX_IMAGE_SIZE_BYTES * 4 < payload.length * 3 then
          .error (.dataURITooLarge payload.length)
        else
          .ok { inlineData := some { mimeType := mime, data := payload } }
      else .error (.dataURINotImage mime)
  else if isURL img then
    match env.httpGet img with
    | none => .error .fetchFailed
    | some resp =>
      if resp.statusCode ≠ 200 then .error (.httpStatus resp.statusCode)
      else if litPrefix "image/".data (resp.contentType.getD "").data then
        if MAX_IMAGE_SIZE_BYTES < resp.body.length then
          .error (.imageTooLarge resp.body.length)
        else processImageBuffer codec env.maxLongEdge resp.body
      else .error (.badContentType (resp.contentType.getD ""))
  else
    if isAbsPath (resolvedPath img) then
      match env.readFile (resolvedPath img) with
      | none => .error (.fileReadError (resolvedPath img))
      | some buffer => processImageBuffer codec env.maxLongEdge buffer
    else .error (.unsupportedImageFormat img)

/-! ## Reference classification, mirroring the branch tests of `toPart` -/

inductive ReferenceKind where
  | RemoteUrl
  | FileUri
  | AbsolutePath
  | DataUri
deriving Repr, DecidableEq

/-- The classification implicit in `toPart`'s branch order: data URI
first, then HTTP(S) URL, then file URL resolved to a path, then absolute
path, otherwise the "Unsupported image format" error.  A pure function:
no network or filesystem parameter occurs. -/
def classify (s : String) : Except VisionError ReferenceKind :=
  if isDataURI s then .ok .DataUri
  else if isURL s then .ok .RemoteUrl
  else if isAbsPath (resolvedPath s) then
    .ok (if isFileURL s then .FileUri else .AbsolutePath)
  else .error (.unsupportedImageFormat s)

/-! ## The vision.analyze request handler (src/index.ts lines 439-488) -/

/-- The sequential per-image loop `for (const img of imageArray)
parts.push(await toPart(img))`: stops at the first failing image. -/
def toParts (codec : Codec) (env : Env) : List String → Except VisionError (List GeminiPart)
  | [] => .ok []
  | img :: rest =>
    match toPart codec env img with
    | .error e => .error e
    | .ok p =>
      match toParts codec env rest with
      | .error e => .error e
      | .ok ps => .ok (p :: ps)

/-- JavaScript truthiness of the `images` argument as tested by
`if (!images)`: absent and the empty string are falsy, every array
(even the empty one) is truthy. -/
def imagesFalsy : Option (String ⊕ List String) → Bool
  | none => true
  | some (.inl s) => decide (s = "")
  | some (.inr _) => false

/-- The whitespace trimmed by JavaScript `String.prototype.trim` (the
common ASCII portion plus no-break space and the byte order mark). -/
def jsWhitespace (c : Char) : Bool :=
  c = ' ' || c = '\t' || c = '\n' || c = '\r' || c = '\x0b' || c = '\x0c' ||
    c.toNat = 160 || c.toNat = 65279

def jsTrim (s : String) : List Char :=
  ((s.data.dropWhile jsWhitespace).reverse.dropWhile jsWhitespace).reverse

/-- The test `!instruction || instruction.trim().length === 0`. -/
def instructionInvalid : Option String → Bool
  | none => true
  | some s => decide ((jsTrim s).length = 0)

/-- `Array.isArray(images) ? images : [images]`. -/
def toImageArray : Option (String ⊕ List String) → List String
  | some (.inl s) => [s]
  | some (.inr l) => l
  | none => []

/-- The CallToolRequestSchema handler for vision.analyze, from the
argument checks onward (src/index.ts lines 444-488), parameterized over
the downstream `callGemini`.  The value returned is the text placed in
the tool result. -/
def handleVisionAnalyze (codec : Codec) (env : Env)
    (callGemini : List GeminiPart → Except VisionError String)
    (images : Option (String ⊕ List String)) (instruction : Option String) :
    Except VisionError String :=
  if imagesFalsy images then .error .missingImages
  else if instructionInvalid instruction then .error .missingInstruction
  else if (toImageArray images).length = 0 then .error .atLeastOneImageRequired
  else if MAX_IMAGES < (toImageArray images).length then
    .error (.tooManyImages (toImageArray images).length)
  else
    match toParts codec env (toImageArray images) with
    | .error e => .error e
    | .ok ps => callGemini (ps ++ [{ text := some (instruction.getD "") }])

/-! ## Provider dispatch (src/index.ts lines 202-327) -/

structure RespPart where
  text : Option String
deriving Repr, DecidableEq

structure RespContent where
  parts : Option (List RespPart)
deriving Repr, DecidableEq

structure RespCandidate where
  content : Option RespContent
deriving Repr, DecidableEq

/-- The provider's JSON envelope as the dispatchers read it:
`candidates` and `error.message`, each possibly absent. -/
structure GeminiResponse where
  candidates : Option (List RespCandidate)
  errorMessage : Option String
deriving Repr, DecidableEq

/-- `json.candidates?.[0]?.content?.parts?.map(p => p.text).join("") ?? ""`
(src/index.ts lines 255-258 and 318-321); `join` renders an absent text
field as the empty string. -/
def extractText (json : GeminiResponse) : String :=
  match json.candidates with
  | none => ""
  | some cands =>
    match cands.head? with
    | none => ""
    | some c0 =>
      match c0.content with
      | none => ""
      | some content =>
        match content.parts with
        | none => ""
        | some ps => String.join (ps.map (fun p => p.text.getD ""))

structure GeminiContent where
  role : String
  parts : List GeminiPart
deriving Repr, DecidableEq

/-- The POSTed JSON body `{contents: [{role: "user", parts}]}`. -/
structure GeminiRequestBody where
  contents : List GeminiContent
deriving Repr, DecidableEq

def buildRequestBody (parts : List GeminiPart) : GeminiRequestBody :=
  { contents := [{ role := "user", parts := parts }] }

/-- JavaScript truthiness of an optional configuration string. -/
def truthyOptStr : Option String → Bool
  | none => false
  | some s => decide (s ≠ "")

/-- The network for a dispatcher: given the request body, `none` models a
thrown request/abort error, otherwise the status code together with the
result of `body.json()` (`Except.error` carries the raw body text read
when JSON parsing failed). -/
def ProviderNet : Type :=
  GeminiRequestBody → Option (Nat × Except String GeminiResponse)

/-- `callGeminiAIStudio` (src/index.ts lines 211-264): require a truthy
API key, POST the body, surface a parse failure with the first 200
characters of the raw body, surface a non-200 status with
`json.error?.message` (falling back to the truncated serialized body),
and otherwise extract the text. -/
def callGeminiAIStudio (net : ProviderNet) (apiKey : Option String)
    (stringify : GeminiResponse → String) (parts : List GeminiPart) :
    Except VisionError String :=
  if truthyOptStr apiKey then
    match net (buildRequestBody parts) with
    | none => .error .fetchFailed
    | some (status, .error raw) => .error (.parseFailure status (String.mk (raw.data.take 200)))
    | some (status, .ok json) =>
      if status ≠ 200 then
        .error (.providerApiError status
          (json.errorMessage.getD (String.mk ((stringify json).data.take 200))))
      else .ok (extractText json)
  else .error .missingApiKey

/-- `callGeminiVertex` (src/index.ts lines 267-327): require a truthy
project, resolve the access token (its failure propagates), then the same
request/parse/status/extraction discipline as the AI Studio dispatcher. -/
def callGeminiVertex (net : ProviderNet) (project : Option String)
    (accessToken : Except VisionError String)
    (stringify : GeminiResponse → String) (parts : List GeminiPart) :
    Except VisionError String :=
  if truthyOptStr project then
    match accessToken with
    | .error e => .error e
    | .ok _ =>
      match net (buildRequestBody parts) with
      | none => .error .fetchFailed
      | some (status, .error raw) => .error (.parseFailure status (String.mk (raw.data.take 200)))
      | some (status, .ok json) =>
        if status ≠ 200 then
          .error (.vertexApiError status
            (json.errorMessage.getD (String.mk ((stringify json).data.take 200))))
        else .ok (extractText json)
  else .error .missingProject

/-! ## Concrete fixtures used by the witness theorems -/

/-- A codec that decodes the buffer [1, 2, 3] as a 10x8 PNG and rejects
every other buffer. -/
def pngCodec : Codec where
  metadata := fun buf =>
    if buf = [1, 2, 3] then .ok ⟨some "png", some 10, some 8⟩ else .error ()
  resizeInside := fun _ _ => [0]

/-- A codec that rejects every buffer. -/
def rejectAllCodec : Codec where
  metadata := fun _ => .error ()
  resizeInside := fun b _ => b

/-- A codec that reports the buffer [7] as a 4096x2048 PNG and resizes it
to the two-byte buffer [9, 9]. -/
def resizeCodec : Codec where
  metadata := fun buf =>
    if buf = [7] then .ok ⟨some "png", some 4096, some 2048⟩ else .error ()
  resizeInside := fun _ _ => [9, 9]

/-- A codec whose resize output exceeds the size ceiling by one byte. -/
def oversizeCodec : Codec where
  metadata := fun buf =>
    if buf = [5] then .ok ⟨some "png", some 5000, some 100⟩ else .error ()
  resizeInside := fun _ _ => List.replicate (MAX_IMAGE_SIZE_BYTES + 1) 0

/-- An environment serving the file "/img" with the bytes [1, 2, 3] and
nothing else, with the default 2048 long-edge threshold. -/
def testEnv : Env where
  httpGet := fun _ => none
  readFile := fun p => if p = "/img" then some [1, 2, 3] else none
  maxLongEdge := 2048

def testGem : List GeminiPart → Except VisionError String :=
  fun _ => .ok "answer"

/-- A network answering every request with HTTP 200 and a body with no
`candidates`. -/
def emptyResp : GeminiResponse := ⟨none, none⟩

def testNet : ProviderNet :=
  fun _ => some (200, .ok emptyResp)

def testStringify : GeminiResponse → String :=
  fun _ => "serialized"

instance {e a : Type} [DecidableEq e] [DecidableEq a] : DecidableEq (Except e a) := fun x y =>
  match x, y with
  | .error u, .error v => if h : u = v then isTrue (by rw [h]) else isFalse (by simp [h])
  | .ok u, .ok v => if h : u = v then isTrue (by rw [h]) else isFalse (by simp [h])
  | .error _, .ok _ => isFalse (by simp)
  | .ok _, .error _ => isFalse (by simp)

/-! ## Helper lemmas on the base64 coder -/

theorem b64Val_b64Char_of_lt : ∀ n, n < 64 → b64Val (b64Char n) = n := by decide

theorem b64Char_ne_pad (n : Nat) : b64Char n ≠ '=' := by
  by_cases h : n < 64
  · exact (by decide : ∀ m, m < 64 → b64Char m ≠ '=') n h
  · have hlen : b64Table.length = 64 := by decide
    unfold b64Char
    rw [List.getD_eq_default]
    · decide
    · omega

/-- Decoding inverts encoding on genuine byte lists. -/
theorem base64_roundtrip : ∀ l : List Nat, (∀ b ∈ l, b < 256) →
    base64Decode (base64Encode l) = l
  | [], _ => rfl
  | [a], hl => by
    have ha : a < 256 := hl a (by simp)
    have h1 : b64Val (b64Char (a / 4)) = a / 4 := b64Val_b64Char_of_lt _ (by omega)
    have h2 : b64Val (b64Char (a % 4 * 16)) = a % 4 * 16 := b64Val_b64Char_of_lt _ (by omega)
    simp only [base64Encode, base64Decode]
    split
    · rw [h1, h2]
      simp only [List.cons.injEq, and_true]
      omega
    · next hcond => exact absurd (by simp) hcond
  | [a, b], hl => by
    have ha : a < 256 := hl a (by simp)
    have hb : b < 256 := hl b (by simp)
    have h1 : b64Val (b64Char (a / 4)) = a / 4 := b64Val_b64Char_of_lt _ (by omega)
    have h2 : b64Val (b64Char (a % 4 * 16 + b / 16)) = a % 4 * 16 + b / 16 :=
      b64Val_b64Char_of_lt _ (by omega)
    have h3 : b64Val (b64Char (b % 16 * 4)) = b % 16 * 4 := b64Val_b64Char_of_lt _ (by omega)
    simp only [base64Encode, base64Decode]
    split
    · next hcond => exact absurd hcond.1 (b64Char_ne_pad _)
    · split
      · rw [h1, h2, h3]
        simp only [List.cons.injEq, and_true]
        omega
      · next hcond => exact absurd (by simp) hcond
  | a :: b :: c :: rest, hl => by
    have ha : a < 256 := hl a (by simp)
    have hb : b < 256 := hl b (by simp)
    have hc : c < 256 := hl c (by simp)
    have h1 : b64Val (b64Char (a / 4)) = a / 4 := b64Val_b64Char_of_lt _ (by omega)
    have h2 : b64Val (b64Char (a % 4 * 16 + b / 16)) = a % 4 * 16 + b / 16 :=
      b64Val_b64Char_of_lt _ (by omega)
    have h3 : b64Val (b64Char (b % 16 * 4 + c / 64)) = b % 16 * 4 + c / 64 :=
      b64Val_b64Char_of_lt _ (by omega)
    have h4 : b64Val (b64Char (c % 64)) = c % 64 := b64Val_b64Char_of_lt _ (by omega)
    have ih : base64Decode (base64Encode rest) = rest :=
      base64_roundtrip rest (fun x hx => hl x (by simp [hx]))
    simp only [base64Encode, base64Decode]
    split
    · next hcond => exact absurd hcond.1 (b64Char_ne_pad _)
    · split
      · next hcond => exact absurd hcond.1 (b64Char_ne_pad _)
      · rw [h1, h2, h3, h4, ih]
        simp only [List.cons.injEq, and_true]
        omega

/-! ## Helper lemmas on formatToMime -/

def mimeRange : List String :=
  ["image/jpeg", "image/png", "image/gif", "image/webp", "image/tiff",
   "image/avif", "image/heif", "image/heic"]

theorem lookup_snd_mem : ∀ (l : List (String × String)) (k v : String),
    l.lookup k = some v → v ∈ l.map Prod.snd := by
  intro l
  induction l with
  | nil => intro k v h; simp [List.lookup] at h
  | cons kv t ih =>
    intro k v h
    rw [List.lookup] at h
    by_cases hk : (k == kv.fst) = true
    · rw [hk] at h
      simp at h
      simp [← h]
    · rw [Bool.not_eq_true] at hk
      rw [hk] at h
      simp [ih k v h]

/-- Every output of the closed mapping lies in its eight-value range. -/
theorem formatToMime_mem_range (format : String) : formatToMime format ∈ mimeRange := by
  unfold formatToMime
  cases h : mimeMap.lookup (strToLower format) with
  | none => decide
  | some m =>
    have hm := lookup_snd_mem mimeMap (strToLower format) m h
    have hall : ∀ x ∈ mimeMap.map Prod.snd, x ∈ mimeRange := by decide
    exact hall m hm

/-! ## Helper lemmas on the per-image loop -/

theorem toParts_length (codec : Codec) (env : Env) :
    ∀ (l : List String) (ps : List GeminiPart),
      toParts codec env l = .ok ps → ps.length = l.length := by
  intro l
  induction l with
  | nil =>
    intro ps h
    simp only [toParts] at h
    cases h
    rfl
  | cons x xs ih =>
    intro ps h
    simp only [toParts] at h
    cases hx : toPart codec env x with
    | error e => rw [hx] at h; cases h
    | ok p =>
      rw [hx] at h
      cases hxs : toParts codec env xs with
      | error e => rw [hxs] at h; cases h
      | ok ps' =>
        rw [hxs] at h
        cases h
        simp [ih ps' hxs]

theorem toParts_get (codec : Codec) (env : Env) :
    ∀ (l : List String) (ps : List GeminiPart), toParts codec env l = .ok ps →
      ∀ i (hi : i < l.length) (hp : i < ps.length),
        toPart codec env (l.get ⟨i, hi⟩) = .ok (ps.get ⟨i, hp⟩) := by
  intro l
  induction l with
  | nil => intro ps h i hi; simp at hi
  | cons x xs ih =>
    intro ps h i hi hp
    simp only [toParts] at h
    cases hx : toPart codec env x with
    | error e => rw [hx] at h; cases h
    | ok p =>
      rw [hx] at h
      cases hxs : toParts codec env xs with
      | error e => rw [hxs] at h; cases h
      | ok ps' =>
        rw [hxs] at h
        cases h
        cases i with
        | zero => simpa using hx
        | succ j =>
          have hj : j < xs.length := by simpa using hi
          have hj' : j < ps'.length := by simpa using hp
          simpa using ih ps' hxs j hj hj'

/-! ## Inversion of processImageBuffer -/

/-- A successful normalization always comes from a successful metadata
decode, and its MIME type is the closed mapping applied to the decoded
format. -/
theorem processImageBuffer_ok_inv (codec : Codec) (L : Nat) (buffer : List Nat)
    (p : GeminiPart) (h : processImageBuffer codec L buffer = .ok p) :
    ∃ md, codec.metadata buffer = .ok md ∧
      ∃ d, p.inlineData = some d ∧ d.mimeType = formatToMime (md.format.getD "") := by
  cases hm : codec.metadata buffer with
  | error e =>
    simp only [processImageBuffer, hm] at h
    cases h
  | ok md =>
    simp only [processImageBuffer, hm] at h
    refine ⟨md, rfl, ?_⟩
    by_cases ht : (truthyFormat md.format && truthyDim md.width && truthyDim md.height) = true
    · rw [if_pos ht] at h
      by_cases hs : MAX_IMAGE_SIZE_BYTES < (processedBuffer codec L buffer md).length
      · rw [if_pos hs] at h; cases h
      · rw [if_neg hs] at h
        cases h
        exact ⟨_, rfl, rfl⟩
    · rw [if_neg ht] at h; cases h

/-! ## Helper lemmas on the modelled resize geometry -/

/-- The defining inequalities of rounding to the nearest integer:
`natRound num den` is within half of `num / den`. -/
theorem natRound_div_bounds (num den : Nat) (hden : 0 < den) :
    2 * den * natRound num den ≤ 2 * num + den ∧
      2 * num + den < 2 * den * (natRound num den + 1) := by
  have h1 := Nat.div_add_mod (2 * num + den) (2 * den)
  have h2 : (2 * num + den) % (2 * den) < 2 * den := Nat.mod_lt _ (by omega)
  unfold natRound
  generalize hq : (2 * num + den) / (2 * den) = q at h1 ⊢
  generalize hr : (2 * num + den) % (2 * den) = r at h1 h2
  have hexp : 2 * den * (q + 1) = 2 * den * q + 2 * den := by ring
  rw [hexp]
  generalize hp : 2 * den * q = P at h1 ⊢
  omega

/-- Scaling the long edge by `L / w` and rounding gives back exactly `L`. -/
theorem natRound_exact (w L : Nat) (hw : 0 < w) : natRound (w * L) w = L := by
  unfold natRound
  have h : 2 * (w * L) + w = w * (2 * L + 1) := by ring
  have h2 : 2 * w = w * 2 := by ring
  rw [h, h2, Nat.mul_div_mul_left _ _ hw]
  omega

/-- The fit-inside geometry when `h ≤ w` and `L < w`: the long edge lands
exactly on `L`, the short edge shrinks and stays at most `L`. -/
theorem fitInside_long_edge (w h L : Nat) (_hh : 0 < h) (hle : h ≤ w) (hL : 0 < L)
    (hLw : L < w) :
    fitInsideDims w h L = (L, natRound (h * L) w)
    ∧ natRound (h * L) w ≤ h
    ∧ natRound (h * L) w ≤ L := by
  have hw : 0 < w := by omega
  have hcond : ¬(w ≤ L ∧ h ≤ L) := by omega
  have hhl : h * L ≤ h * w := Nat.mul_le_mul_left h (le_of_lt hLw)
  have hhw : h * L ≤ w * L := Nat.mul_le_mul_right L hle
  refine ⟨?_, ?_, ?_⟩
  · unfold fitInsideDims
    rw [if_neg hcond, max_eq_left hle, natRound_exact w L hw]
  · unfold natRound
    have hexp : (h + 1) * (2 * w) = 2 * (h * w) + 2 * w := by ring
    have hlt : 2 * (h * L) + w < (h + 1) * (2 * w) := by rw [hexp]; omega
    have hdiv := (Nat.div_lt_iff_lt_mul (by omega : 0 < 2 * w)).mpr hlt
    omega
  · unfold natRound
    have hexp : (L + 1) * (2 * w) = 2 * (w * L) + 2 * w := by ring
    have hlt : 2 * (h * L) + w < (L + 1) * (2 * w) := by rw [hexp]; omega
    have hdiv := (Nat.div_lt_iff_lt_mul (by omega : 0 < 2 * w)).mpr hlt
    omega

/-- The fit-inside geometry in the symmetric orientation `w ≤ h`,
`L < h`. -/
theorem fitInside_long_edge_sym (w h L : Nat) (_hw : 0 < w) (hle : w ≤ h) (hL : 0 < L)
    (hLh : L < h) :
    fitInsideDims w h L = (natRound (w * L) h, L)
    ∧ natRound (w * L) h ≤ w
    ∧ natRound (w * L) h ≤ L := by
  have hh : 0 < h := by omega
  have hcond : ¬(w ≤ L ∧ h ≤ L) := by omega
  have hwl : w * L ≤ w * h := Nat.mul_le_mul_left w (le_of_lt hLh)
  have hwh : w * L ≤ h * L := Nat.mul_le_mul_right L hle
  refine ⟨?_, ?_, ?_⟩
  · unfold fitInsideDims
    rw [if_neg hcond, max_eq_right hle, natRound_exact h L hh]
  · unfold natRound
    have hexp : (w + 1) * (2 * h) = 2 * (w * h) + 2 * h := by ring
    have hlt : 2 * (w * L) + h < (w + 1) * (2 * h) := by rw [hexp]; omega
    have hdiv := (Nat.div_lt_iff_lt_mul (by omega : 0 < 2 * h)).mpr hlt
    omega
  · unfold natRound
    have hexp : (L + 1) * (2 * h) = 2 * (h * L) + 2 * h := by ring
    have hlt : 2 * (w * L) + h < (L + 1) * (2 * h) := by rw [hexp]; omega
    have hdiv := (Nat.div_lt_iff_lt_mul (by omega : 0 < 2 * h)).mpr hlt
    omega

/-! ## The claims -/

/-- C1: The claim says the codec decode gate is applied to every
reference kind and cannot be skipped, so that non-image bytes behind a
data:image/png prefix fail with the invalid-image error.  The code
violates this: the data-URI branch of `toPart` returns before
`processImageBuffer` is ever reached.  With the payload "aGVsbG8=" — the
base64 of the ASCII text "hello", not an image — `toPart` succeeds for
EVERY codec and environment, even a codec rejecting every buffer, while
the decode gate, had it been applied to the decoded payload bytes, would
have rejected them. -/
theorem C1_decode_gate_skipped_for_data_uris :
    (∀ (codec : Codec) (env : Env),
      toPart codec env "data:image/png;base64,aGVsbG8=" =
        .ok ⟨some ⟨"image/png", "aGVsbG8="⟩, none⟩)
    ∧ base64Decode "aGVsbG8=".data = [104, 101, 108, 108, 111]
    ∧ (∀ L, processImageBuffer rejectAllCodec L [104, 101, 108, 108, 111] =
        .error .notAValidImage) := by
  refine ⟨fun codec env => rfl, by decide, fun L => rfl⟩

/-- C2 counterexample: the claim says every successfully produced part's
mimeType comes from the closed format-to-MIME mapping applied to the
decoded byte content and never from the reference's claimed type, but a
data-URI part copies the claimed MIME type verbatim: "image/bogus" is
produced, a string no decoded format can yield through the mapping. -/
theorem C2_cex_data_uri_mime_passthrough :
    toPart pngCodec testEnv "data:image/bogus;base64,AAAA" =
      .ok ⟨some ⟨"image/bogus", "AAAA"⟩, none⟩
    ∧ "image/bogus" ∉ mimeRange
    ∧ (∀ format, formatToMime format ≠ "image/bogus") := by
  refine ⟨by decide, by decide, fun format h => ?_⟩
  have hmem := formatToMime_mem_range format
  rw [h] at hmem
  exact absurd hmem (by decide)

/-- C2 (amended): for every reference that is NOT a data URI — remote
URLs, file URIs, absolute paths, i.e. every part produced through
`processImageBuffer` — a successfully produced part's mimeType equals the
closed mapping applied to the format decoded from the fetched byte
content; data-URI parts instead carry the reference's claimed MIME type
verbatim. -/
theorem C2_mime_from_decoded_format (codec : Codec) (env : Env) (img : String)
    (p : GeminiPart) (d : InlineData)
    (hnd : isDataURI img = false)
    (hok : toPart codec env img = .ok p)
    (hd : p.inlineData = some d) :
    ∃ buf md, codec.metadata buf = .ok md ∧
      d.mimeType = formatToMime (md.format.getD "") := by
  unfold toPart at hok
  simp only [hnd, Bool.false_eq_true, if_false] at hok
  by_cases hu : isURL img = true
  · rw [if_pos hu] at hok
    cases hg : env.httpGet img with
    | none => simp only [hg] at hok; cases hok
    | some resp =>
      simp only [hg] at hok
      split at hok
      · cases hok
      · split at hok
        · split at hok
          · cases hok
          · obtain ⟨md, hmd, d', hd', hmime⟩ := processImageBuffer_ok_inv _ _ _ _ hok
            refine ⟨resp.body, md, hmd, ?_⟩
            rw [hd] at hd'
            injection hd' with hdd
            rw [hdd]
            exact hmime
        · cases hok
  · rw [if_neg hu] at hok
    split at hok
    · cases hf : env.readFile (resolvedPath img) with
      | none => simp only [hf] at hok; cases hok
      | some buffer =>
        simp only [hf] at hok
        obtain ⟨md, hmd, d', hd', hmime⟩ := processImageBuffer_ok_inv _ _ _ _ hok
        refine ⟨buffer, md, hmd, ?_⟩
        rw [hd] at hd'
        injection hd' with hdd
        rw [hdd]
        exact hmime
    · cases hok

/-- C2 witness: the amended theorem applied to the absolute path "/img",
served by the test environment as the buffer [1, 2, 3], which the test
codec decodes as a PNG. -/
theorem C2_mime_from_decoded_format_witness :
    ∃ buf md, pngCodec.metadata buf = .ok md ∧
      ("image/png" : String) = formatToMime (md.format.getD "") := by
  exact C2_mime_from_decoded_format pngCodec testEnv "/img"
    ⟨some ⟨"image/png", "AQID"⟩, none⟩ ⟨"image/png", "AQID"⟩
    (by decide) (by decide) rfl

/-- C7: reference classification behaves per the spec's vectors —
"https://x/y.png" is a remote URL, "file:///tmp/a.jpg" a file-scheme URI,
"/tmp/a.jpg" an absolute path, "data:image/png;base64,AAAA" a data URI,
and "ftp://x" fails with the unsupported-format error, in `toPart` as
well; classification is a pure function of the string (no network or
filesystem parameter occurs in `classify`). -/
theorem C7_reference_classification :
    classify "https://x/y.png" = .ok .RemoteUrl
    ∧ classify "file:///tmp/a.jpg" = .ok .FileUri
    ∧ classify "/tmp/a.jpg" = .ok .AbsolutePath
    ∧ classify "data:image/png;base64,AAAA" = .ok .DataUri
    ∧ classify "ftp://x" = .error (.unsupportedImageFormat "ftp://x")
    ∧ (∀ (codec : Codec) (env : Env),
        toPart codec env "ftp://x" = .error (.unsupportedImageFormat "ftp://x")) := by
  refine ⟨by decide, by decide, by decide, by decide, by decide, fun codec env => rfl⟩

/-- The text part appended by the handler after the image parts. -/
def textPart (instr : String) : GeminiPart :=
  { inlineData := none, text := some instr }

/-- C3: when every image of a non-empty list of at most ten normalizes
successfully, the handler invokes the provider with exactly n + 1 parts:
the n image parts in input order followed by exactly one text part equal
to the instruction; the dispatcher's request body carries exactly these
parts in its single user turn. -/
theorem C3_parts_assembly (codec : Codec) (env : Env)
    (gem : List GeminiPart → Except VisionError String)
    (imgs : List String) (instr : String) (ps : List GeminiPart)
    (h1 : imgs ≠ [])
    (h2 : imgs.length ≤ MAX_IMAGES)
    (h3 : (jsTrim instr).length ≠ 0)
    (h4 : toParts codec env imgs = .ok ps) :
    handleVisionAnalyze codec env gem (some (.inr imgs)) (some instr)
        = gem (ps ++ [textPart instr])
    ∧ (ps ++ [textPart instr]).length = imgs.length + 1
    ∧ buildRequestBody (ps ++ [textPart instr])
        = { contents := [{ role := "user", parts := ps ++ [textPart instr] }] }
    ∧ (∀ i (hi : i < imgs.length) (hp : i < ps.length),
        toPart codec env (imgs.get ⟨i, hi⟩) = .ok (ps.get ⟨i, hp⟩)) := by
  have hlen : ps.length = imgs.length := toParts_length codec env imgs ps h4
  refine ⟨?_, ?_, rfl, toParts_get codec env imgs ps h4⟩
  · unfold handleVisionAnalyze
    have hif : imagesFalsy (some (.inr imgs)) = false := rfl
    have hii : instructionInvalid (some instr) = false := by
      simp [instructionInvalid, h3]
    rw [hif, hii]
    simp only [Bool.false_eq_true, if_false]
    have h5 : ¬((toImageArray (some (.inr imgs))).length = 0) := by
      simp only [toImageArray]
      intro hz
      exact h1 (List.length_eq_zero.mp hz)
    have h6 : ¬(MAX_IMAGES < (toImageArray (some (.inr imgs))).length) := by
      simp only [toImageArray]
      omega
    rw [if_neg h5, if_neg h6]
    have hta : toParts codec env (toImageArray (some (.inr imgs))) = .ok ps := h4
    simp only [hta]
    rfl
  · simp [hlen]

/-- C3 witness: one valid image plus the instruction "describe" yields the
two-part call, image part first, instruction text last. -/
theorem C3_parts_assembly_witness :
    handleVisionAnalyze pngCodec testEnv testGem (some (.inr ["/img"])) (some "describe")
      = testGem [⟨some ⟨"image/png", "AQID"⟩, none⟩, ⟨none, some "describe"⟩] := by
  exact (C3_parts_assembly pngCodec testEnv testGem ["/img"] "describe"
    [⟨some ⟨"image/png", "AQID"⟩, none⟩] (by decide) (by decide) (by decide) (by decide)).1

/-- C8: a list of more than ten images is rejected with the count error
before any fetch or normalization is attempted: the result is the same
for EVERY codec, network environment and provider, none of which is
consulted. -/
theorem C8_count_checked_before_any_fetch (codec : Codec) (env : Env)
    (gem : List GeminiPart → Except VisionError String)
    (imgs : List String) (instr : String)
    (hn : MAX_IMAGES < imgs.length)
    (hi : (jsTrim instr).length ≠ 0) :
    handleVisionAnalyze codec env gem (some (.inr imgs)) (some instr)
      = .error (.tooManyImages imgs.length) := by
  unfold handleVisionAnalyze
  have hif : imagesFalsy (some (.inr imgs)) = false := rfl
  have hii : instructionInvalid (some instr) = false := by
    simp [instructionInvalid, hi]
  rw [hif, hii]
  simp only [Bool.false_eq_true, if_false]
  have h5 : ¬((toImageArray (some (.inr imgs))).length = 0) := by
    simp only [toImageArray]
    omega
  rw [if_neg h5, if_pos (by simp only [toImageArray]; exact hn)]
  rfl

/-- C8 witness: eleven images fail with the count error on the test
fixtures. -/
theorem C8_count_checked_before_any_fetch_witness :
    handleVisionAnalyze pngCodec testEnv testGem
      (some (.inr ["a", "b", "c", "d", "e", "f", "g", "h", "i", "j", "k"])) (some "hi")
      = .error (.tooManyImages 11) := by
  exact C8_count_checked_before_any_fetch pngCodec testEnv testGem
    ["a", "b", "c", "d", "e", "f", "g", "h", "i", "j", "k"] "hi" (by decide) (by decide)

/-- C10 counterexample: the claim says a single string behaves exactly
like the one-element list containing it, but for the empty string the
two forms diverge — the string form is caught by the JavaScript
falsiness test `!images` and fails with the missing-parameter error,
while the list form (an array is always truthy) proceeds into
classification and fails with the unsupported-format error. -/
theorem C10_cex_empty_string_vs_singleton :
    handleVisionAnalyze pngCodec testEnv testGem (some (.inl "")) (some "hi")
        = .error .missingImages
    ∧ handleVisionAnalyze pngCodec testEnv testGem (some (.inr [""])) (some "hi")
        = .error (.unsupportedImageFormat "")
    ∧ handleVisionAnalyze pngCodec testEnv testGem (some (.inl "")) (some "hi")
        ≠ handleVisionAnalyze pngCodec testEnv testGem (some (.inr [""])) (some "hi") := by
  refine ⟨by decide, by decide, by decide⟩

/-- C10 (amended): for every NON-EMPTY string s, invoking the tool with
images given as the single string s is observably identical to invoking
it with the one-element list [s], whatever the codec, environment,
provider and instruction. -/
theorem C10_nonempty_string_equals_singleton (codec : Codec) (env : Env)
    (gem : List GeminiPart → Except VisionError String)
    (s : String) (instruction : Option String)
    (hs : s ≠ "") :
    handleVisionAnalyze codec env gem (some (.inl s)) instruction
      = handleVisionAnalyze codec env gem (some (.inr [s])) instruction := by
  unfold handleVisionAnalyze
  have h1 : imagesFalsy (some (.inl s)) = false := by
    simp [imagesFalsy, hs]
  have h2 : imagesFalsy (some (.inr [s])) = false := rfl
  rw [h1, h2]
  rfl

/-- C10 witness: the amended equivalence at the non-empty reference
"/img". -/
theorem C10_nonempty_string_equals_singleton_witness :
    handleVisionAnalyze pngCodec testEnv testGem (some (.inl "/img")) (some "hi")
      = handleVisionAnalyze pngCodec testEnv testGem (some (.inr ["/img"])) (some "hi") := by
  exact C10_nonempty_string_equals_singleton pngCodec testEnv testGem "/img" (some "hi")
    (by decide)

/-- C4: the resize policy.  With a positive threshold exceeded by the
longer decoded edge, processImageBuffer feeds the resize output into the
final size check and the emitted part (conjunct 1).  The modelled sharp
fit-inside geometry lands the longer edge exactly on the threshold, never
enlarges either dimension, and keeps the short edge within half a pixel
of exact aspect preservation (conjuncts 2-4).  A zero threshold disables
resizing while the final size check (conjunct 5) and decode validation
(conjunct 6) still apply. -/
theorem C4_resize_policy (codec : Codec) (L : Nat) (buf : List Nat)
    (fmt : String) (w h : Nat)
    (hmd : codec.metadata buf = .ok ⟨some fmt, some w, some h⟩)
    (hfmt : fmt ≠ "") (hw : 0 < w) (hh : 0 < h) :
    (0 < L → L < max w h →
      processImageBuffer codec L buf =
        if MAX_IMAGE_SIZE_BYTES < (codec.resizeInside buf L).length then
          .error (.imageTooLargeAfterProcessing (codec.resizeInside buf L).length)
        else
          .ok ⟨some ⟨formatToMime fmt,
            String.mk (base64Encode (codec.resizeInside buf L))⟩, none⟩)
    ∧ (0 < L → L < max w h →
        max (fitInsideDims w h L).1 (fitInsideDims w h L).2 = L
        ∧ (fitInsideDims w h L).1 ≤ w ∧ (fitInsideDims w h L).2 ≤ h)
    ∧ (h ≤ w → 0 < L → L < w →
        (fitInsideDims w h L).1 = L
        ∧ 2 * w * (fitInsideDims w h L).2 ≤ 2 * (h * L) + w
        ∧ 2 * (h * L) + w < 2 * w * ((fitInsideDims w h L).2 + 1))
    ∧ (w ≤ h → 0 < L → L < h →
        (fitInsideDims w h L).2 = L
        ∧ 2 * h * (fitInsideDims w h L).1 ≤ 2 * (w * L) + h
        ∧ 2 * (w * L) + h < 2 * h * ((fitInsideDims w h L).1 + 1))
    ∧ (L = 0 →
        processImageBuffer codec L buf =
          if MAX_IMAGE_SIZE_BYTES < buf.length then
            .error (.imageTooLargeAfterProcessing buf.length)
          else .ok ⟨some ⟨formatToMime fmt, String.mk (base64Encode buf)⟩, none⟩)
    ∧ (∀ bad L2, codec.metadata bad = .error () →
        processImageBuffer codec L2 bad = .error .notAValidImage) := by
  have ht : (truthyFormat (some fmt) && truthyDim (some w) && truthyDim (some h)) = true := by
    simp only [truthyFormat, truthyDim, Bool.and_eq_true, decide_eq_true_eq]
    exact ⟨⟨hfmt, by omega⟩, by omega⟩
  refine ⟨?_, ?_, ?_, ?_, ?_, ?_⟩
  · intro hL hmax
    have hpb : processedBuffer codec L buf ⟨some fmt, some w, some h⟩
        = codec.resizeInside buf L := by
      unfold processedBuffer
      simp only [Option.getD_some]
      rw [if_pos hL, if_pos hmax]
    simp only [processImageBuffer, hmd]
    rw [if_pos ht, hpb]
    rfl
  · intro hL hmax
    rcases Nat.le_total h w with hle | hle
    · have hLw : L < w := by
        have := max_eq_left hle
        omega
      obtain ⟨heq, hle2, hle3⟩ := fitInside_long_edge w h L hh hle hL hLw
      rw [heq]
      exact ⟨max_eq_left hle3, by simp [le_of_lt hLw], by simpa using hle2⟩
    · have hLh : L < h := by
        have := max_eq_right hle
        omega
      obtain ⟨heq, hle2, hle3⟩ := fitInside_long_edge_sym w h L hw hle hL hLh
      rw [heq]
      exact ⟨max_eq_right hle3, by simpa using hle2, by simp [le_of_lt hLh]⟩
  · intro hle hL hLw
    obtain ⟨heq, hle2, hle3⟩ := fitInside_long_edge w h L hh hle hL hLw
    rw [heq]
    have hb := natRound_div_bounds (h * L) w (by omega)
    exact ⟨rfl, by simpa using hb.1, by simpa using hb.2⟩
  · intro hle hL hLh
    obtain ⟨heq, hle2, hle3⟩ := fitInside_long_edge_sym w h L hw hle hL hLh
    rw [heq]
    have hb := natRound_div_bounds (w * L) h (by omega)
    exact ⟨rfl, by simpa using hb.1, by simpa using hb.2⟩
  · intro hL0
    subst hL0
    have hpb : processedBuffer codec 0 buf ⟨some fmt, some w, some h⟩ = buf := by
      unfold processedBuffer
      rw [if_neg (by omega)]
    simp only [processImageBuffer, hmd]
    rw [if_pos ht, hpb]
    rfl
  · intro bad L2 hbad
    simp only [processImageBuffer, hbad]

/-- C4 witness: a 4096 x 2048 image with the default 2048 threshold is
resized (to the two-byte fixture buffer, hence base64 "CQk="), and the
modelled geometry maps 4096 x 2048 to 2048 x 1024. -/
theorem C4_resize_policy_witness :
    processImageBuffer resizeCodec 2048 [7] = .ok ⟨some ⟨"image/png", "CQk="⟩, none⟩
    ∧ fitInsideDims 4096 2048 2048 = (2048, 1024) := by
  have h := C4_resize_policy resizeCodec 2048 [7] "png" 4096 2048 (by decide) (by decide)
    (by decide) (by decide)
  constructor
  · have h1 := h.1 (by decide) (by decide)
    rw [h1]
    decide
  · decide

/-- C5: an already-compliant image — longer decoded edge at most the
threshold, byte length within the ceiling — is passed through unmodified:
the emitted data is the base64 of the input bytes, decoding it returns
exactly the input bytes (so the byte length is unchanged), and running
normalization again on the decoded bytes returns the identical result. -/
theorem C5_no_reencode_idempotent (codec : Codec) (L : Nat) (buf : List Nat)
    (fmt : String) (w h : Nat)
    (hmd : codec.metadata buf = .ok ⟨some fmt, some w, some h⟩)
    (hfmt : fmt ≠ "") (hw : 0 < w) (hh : 0 < h)
    (hth : max w h ≤ L)
    (hsz : buf.length ≤ MAX_IMAGE_SIZE_BYTES)
    (hbytes : ∀ b ∈ buf, b < 256) :
    processImageBuffer codec L buf =
      .ok ⟨some ⟨formatToMime fmt, String.mk (base64Encode buf)⟩, none⟩
    ∧ base64Decode (base64Encode buf) = buf
    ∧ (base64Decode (base64Encode buf)).length = buf.length
    ∧ processImageBuffer codec L (base64Decode (base64Encode buf))
        = processImageBuffer codec L buf := by
  have hrt := base64_roundtrip buf hbytes
  have ht : (truthyFormat (some fmt) && truthyDim (some w) && truthyDim (some h)) = true := by
    simp only [truthyFormat, truthyDim, Bool.and_eq_true, decide_eq_true_eq]
    exact ⟨⟨hfmt, by omega⟩, by omega⟩
  have hpb : processedBuffer codec L buf ⟨some fmt, some w, some h⟩ = buf := by
    unfold processedBuffer
    by_cases hL : 0 < L
    · rw [if_pos hL]
      simp only [Option.getD_some]
      rw [if_neg (by omega)]
    · rw [if_neg hL]
  refine ⟨?_, hrt, by rw [hrt], by rw [hrt]⟩
  simp only [processImageBuffer, hmd]
  rw [if_pos ht, hpb, if_neg (by omega)]
  rfl

/-- C5 witness: the 3-byte fixture PNG within the threshold comes back as
its own base64 "AQID" and survives the decode round trip. -/
theorem C5_no_reencode_idempotent_witness :
    processImageBuffer pngCodec 2048 [1, 2, 3] = .ok ⟨some ⟨"image/png", "AQID"⟩, none⟩
    ∧ base64Decode (base64Encode [1, 2, 3]) = [1, 2, 3] := by
  have h := C5_no_reencode_idempotent pngCodec 2048 [1, 2, 3] "png" 10 8 (by decide)
    (by decide) (by decide) (by decide) (by decide) (by decide) (by decide)
  exact ⟨by rw [h.1]; decide, h.2.1⟩

/-- C6: the final size check runs on the post-resize byte length:
whenever the (possibly resized) buffer exceeds the ceiling — even when a
resize was performed successfully — normalization fails with the
size-limit error carrying that length. -/
theorem C6_size_checked_after_resize (codec : Codec) (L : Nat) (buf pb : List Nat)
    (fmt : String) (w h : Nat)
    (hmd : codec.metadata buf = .ok ⟨some fmt, some w, some h⟩)
    (hfmt : fmt ≠ "") (hw : 0 < w) (hh : 0 < h)
    (hpb : pb = if 0 < L then
      (if L < max w h then codec.resizeInside buf L else buf) else buf)
    (hbig : MAX_IMAGE_SIZE_BYTES < pb.length) :
    processImageBuffer codec L buf = .error (.imageTooLargeAfterProcessing pb.length) := by
  have ht : (truthyFormat (some fmt) && truthyDim (some w) && truthyDim (some h)) = true := by
    simp only [truthyFormat, truthyDim, Bool.and_eq_true, decide_eq_true_eq]
    exact ⟨⟨hfmt, by omega⟩, by omega⟩
  have hpb2 : processedBuffer codec L buf ⟨some fmt, some w, some h⟩ = pb := by
    unfold processedBuffer
    simp only [Option.getD_some]
    rw [hpb]
  simp only [processImageBuffer, hmd]
  rw [if_pos ht, hpb2, if_pos hbig]

/-- C6 witness: a successful resize whose output is one byte over the
ceiling still fails the final size check. -/
theorem C6_size_checked_after_resize_witness :
    processImageBuffer oversizeCodec 2048 [5]
      = .error (.imageTooLargeAfterProcessing (MAX_IMAGE_SIZE_BYTES + 1)) := by
  have hlen : (List.replicate (MAX_IMAGE_SIZE_BYTES + 1) (0 : Nat)).length
      = MAX_IMAGE_SIZE_BYTES + 1 := List.length_replicate _ _
  have h := C6_size_checked_after_resize oversizeCodec 2048 [5]
    (List.replicate (MAX_IMAGE_SIZE_BYTES + 1) 0) "png" 5000 100 (by decide) (by decide)
    (by decide) (by decide) rfl (by rw [hlen]; omega)
  rw [hlen] at h
  exact h

/-- C9: on an HTTP 200 response both dispatchers return ok with the
extracted text, never an error: a missing candidates array, an empty
candidates array, a first candidate without content, or content without
parts all extract the empty string, and present parts extract the
concatenation of their text fields from the first candidate (an absent
text field contributing the empty string). -/
theorem C9_missing_candidates_empty_string
    (net vnet : ProviderNet) (apiKey project : Option String) (tok : String)
    (stringify : GeminiResponse → String) (parts : List GeminiPart)
    (json vjson : GeminiResponse)
    (hnet : net (buildRequestBody parts) = some (200, .ok json))
    (hvnet : vnet (buildRequestBody parts) = some (200, .ok vjson))
    (hkey : truthyOptStr apiKey = true)
    (hproj : truthyOptStr project = true) :
    callGeminiAIStudio net apiKey stringify parts = .ok (extractText json)
    ∧ callGeminiVertex vnet project (.ok tok) stringify parts = .ok (extractText vjson)
    ∧ (json.candidates = none → extractText json = "")
    ∧ (json.candidates = some [] → extractText json = "")
    ∧ (∀ c0 rest, json.candidates = some (c0 :: rest) → c0.content = none →
        extractText json = "")
    ∧ (∀ c0 rest content, json.candidates = some (c0 :: rest) →
        c0.content = some content → content.parts = none → extractText json = "")
    ∧ (∀ c0 rest content ps, json.candidates = some (c0 :: rest) →
        c0.content = some content → content.parts = some ps →
        extractText json = String.join (ps.map (fun p => p.text.getD ""))) := by
  refine ⟨?_, ?_, ?_, ?_, ?_, ?_, ?_⟩
  · unfold callGeminiAIStudio
    rw [if_pos hkey]
    simp only [hnet]
    rw [if_neg (by omega)]
  · unfold callGeminiVertex
    rw [if_pos hproj]
    simp only [hvnet]
    rw [if_neg (by omega)]
  · intro hc
    simp [extractText, hc]
  · intro hc
    simp [extractText, hc]
  · intro c0 rest hc hcc
    simp [extractText, hc, hcc]
  · intro c0 rest content hc hcc hp
    simp [extractText, hc, hcc, hp]
  · intro c0 rest content ps hc hcc hp
    simp [extractText, hc, hcc, hp]

/-- C9 witness: against a network answering 200 with a body carrying no
candidates, both dispatchers return the empty string. -/
theorem C9_missing_candidates_empty_string_witness :
    callGeminiAIStudio testNet (some "key") testStringify [] = .ok ""
    ∧ callGeminiVertex testNet (some "proj") (.ok "tok") testStringify [] = .ok "" := by
  have h := C9_missing_candidates_empty_string testNet testNet (some "key") (some "proj")
    "tok" testStringify [] emptyResp emptyResp rfl rfl (by decide) (by decide)
  exact ⟨h.1, h.2.1⟩

end MCPVision
